import Mathlib

/-!
Shallow embedding of the epoll-rs repository (src/lib.rs, src/ffi.rs,
src/event_loop.rs): a safe wrapper around Linux epoll (the Readiness
Multiplexer, `EPoll`) and a convenience layer (`EventLoop`) that tracks
registered descriptor references and resolves ready kernel events back to
them.

Machine integers are modelled as `Int`/`Nat` with explicit wrapping where
the Rust code casts (`i32 as u64` sign-extends, `u64 as i32` truncates).
Kernel syscalls are external collaborators: `epoll_ctl` on one epoll
instance is modelled as a registration list with the documented contract
(ADD fails on an already-registered descriptor, DEL fails on an
unregistered one) plus an injectable OS failure, and `epoll_wait` as an
oracle from the translated timeout to a raw result (return code, errno,
events written).
-/

/-- Error kind surfaced to callers (Rust `std::io::Error` built from
`Error::last_os_error()`): the OS-reported error code. -/
structure OsError where
  code : Int
deriving DecidableEq

/-- Interest/occurrence bit mask, `EventType` from src/ffi.rs (a `u32`
bitflags value). -/
structure EventType where
  bits : Nat
deriving DecidableEq

/-- The associated file is available for read operations (src/ffi.rs). -/
def EPOLLIN : EventType := ⟨0x001⟩

/-- The associated file is available for write operations (src/ffi.rs). -/
def EPOLLOUT : EventType := ⟨0x004⟩

/-- There is urgent data available for read operations (src/ffi.rs). -/
def EPOLLPRI : EventType := ⟨0x002⟩

/-- Error condition happened on the associated file descriptor
(src/ffi.rs). -/
def EPOLLERR : EventType := ⟨0x008⟩

/-- Hang up happened on the associated file descriptor (src/ffi.rs). -/
def EPOLLHUP : EventType := ⟨0x010⟩

/-- Kernel notification record from src/ffi.rs: the occurred events mask
and the opaque 64-bit tag supplied at registration (`data : u64`,
modelled as a `Nat`). -/
structure Event where
  events : EventType
  data : Nat
deriving DecidableEq

/-- The `Default` impl for `Event` in src/ffi.rs:
`Event { events: EPOLLIN, data: 0 }`. -/
def Event.default : Event := ⟨EPOLLIN, 0⟩

/-- Timeout of an epoll wait, `Timeout` from src/lib.rs. -/
inductive Timeout where
  | Indefinite
  | Immediate
  | Milliseconds (n : Nat)
deriving DecidableEq

/-- Translation of `Timeout` to the C `timeout` argument, the `match` at
the top of `EPoll::wait` in src/lib.rs: `Indefinite ↦ -1`, `Immediate ↦ 0`,
`Milliseconds(amount) ↦ amount`, clamped to `i32::MAX = 2147483647` when
`amount >= i32::MAX as usize`. -/
def timeoutToMs : Timeout → Int
  | .Indefinite => -1
  | .Immediate => 0
  | .Milliseconds n => if 2147483647 ≤ n then 2147483647 else (n : Int)

/-- Raw outcome of one `epoll_wait` syscall: the return code `rc`, the OS
error code in effect when `rc < 0`, and the list of event records the
kernel wrote into the caller's buffer. The kernel contract (spec §6) makes
`written.length = rc` and `rc ≤` buffer capacity on success; theorems take
that as a hypothesis. -/
structure SysWait where
  rc : Int
  errno : Int
  written : List Event
deriving DecidableEq

/-- A kernel behaviour for `epoll_wait` on one epoll instance: a response
for each translated timeout value passed down. -/
def KernelWaitOracle : Type := Int → SysWait

/-- The body of `EPoll::wait` in src/lib.rs: translate the timeout, call
`epoll_wait` on the event buffer, then return `Err(last_os_error)` when
`rc < 0` and `Ok(rc as usize)` otherwise. The returned list is the event
buffer after the call: on success the kernel overwrote the first
`written.length` slots, on failure it wrote nothing. -/
def EPoll.wait (buf : List Event) (t : Timeout) (kernel : KernelWaitOracle) :
    Except OsError Nat × List Event :=
  let sys := kernel (timeoutToMs t)
  if sys.rc < 0 then
    (.error ⟨sys.errno⟩, buf)
  else
    (.ok sys.rc.toNat, sys.written ++ buf.drop sys.written.length)

/-- One registration held inside the kernel by an epoll instance:
target descriptor, interest mask, and the caller's 64-bit tag. -/
structure Reg where
  fd : Int
  events : EventType
  data : Nat
deriving DecidableEq

/-- Kernel-side state of one epoll instance: its list of registrations. -/
abbrev Kernel := List Reg

/-- The body of `EPoll::add` in src/lib.rs over the modelled kernel state:
`epoll_ctl(EPOLL_CTL_ADD)` fails with the OS error when the descriptor is
already registered (EEXIST = 17) or when the OS injects a failure `inj`;
otherwise the registration is recorded and `Ok(())` is returned. -/
def EPoll.add (k : Kernel) (inj : Option Int) (fd : Int) (events : EventType)
    (data : Nat) : Except OsError Kernel :=
  match inj with
  | some c => .error ⟨c⟩
  | none =>
    if k.any (fun r => r.fd == fd) then .error ⟨17⟩
    else .ok (k ++ [⟨fd, events, data⟩])

/-- The body of `EPoll::remove` in src/lib.rs over the modelled kernel
state: `epoll_ctl(EPOLL_CTL_DEL)` fails with the OS error when the
descriptor is not registered (ENOENT = 2) or when the OS injects a failure
`inj`; otherwise the registration for `fd` is dropped. -/
def EPoll.remove (k : Kernel) (inj : Option Int) (fd : Int) :
    Except OsError Kernel :=
  match inj with
  | some c => .error ⟨c⟩
  | none =>
    if k.any (fun r => r.fd == fd) then .ok (k.eraseP (fun r => r.fd == fd))
    else .error ⟨2⟩

/-- Rust `fd as u64` for an `i32`-ranged `fd`: sign extension to 64 bits,
i.e. the value modulo 2^64 taken nonnegative. -/
def i32ToU64 (fd : Int) : Nat := (fd.emod 18446744073709551616).toNat

/-- Rust `data as RawFd` for a `u64` value: truncate to the low 32 bits
and reinterpret as a signed 32-bit integer. -/
def u64ToI32 (d : Nat) : Int :=
  let m := d % 4294967296
  if m < 2147483648 then (m : Int) else (m : Int) - 4294967296

/-- A borrowed reference `&T` with `T : AsRawFd`, as held by the
`EventLoop` of src/event_loop.rs: all the code ever reads from it is its
raw descriptor, so it is modelled by that value. -/
structure FileRef where
  fd : Int
deriving DecidableEq

/-- State of the `EventLoop` of src/event_loop.rs: the inner `EPoll`
(represented by its kernel-side registration list), the tracked reference
list `files`, and the companion event buffer `events`. -/
structure EventLoop where
  kernel : Kernel
  files : List FileRef
  events : List Event
deriving DecidableEq

/-- The success state of `EventLoop::new` in src/event_loop.rs: a fresh
epoll instance, no tracked files, an empty event buffer. -/
def EventLoop.new : EventLoop := ⟨[], [], []⟩

/-- The body of `EventLoop::add` in src/event_loop.rs: register the file
on the inner epoll with interest `EPOLLIN` and tag
`file.as_raw_fd() as u64`; on failure return the error with nothing
changed (the `?` operator exits before any mutation), on success push the
file onto `files` and push one `Event::default()` onto `events` when
`events.len() < files.len()`. `inj` is an injected OS failure of the
underlying `epoll_ctl` call. -/
def EventLoop.add (s : EventLoop) (f : FileRef) (inj : Option Int) :
    Except OsError Unit × EventLoop :=
  match EPoll.add s.kernel inj f.fd EPOLLIN (i32ToU64 f.fd) with
  | .error e => (.error e, s)
  | .ok k =>
    let files := s.files ++ [f]
    let events :=
      if s.events.length < files.length then s.events ++ [Event.default]
      else s.events
    (.ok (), ⟨k, files, events⟩)

/-- The body of `EventLoop::find_file_index` in src/event_loop.rs:
`self.files.iter().position(|i| i.as_raw_fd() == fd)`. -/
def EventLoop.findFileIndex (s : EventLoop) (fd : Int) : Option Nat :=
  s.files.findIdx? (fun r => r.fd == fd)

/-- The body of `EventLoop::remove` in src/event_loop.rs: deregister from
the inner epoll (the `?` operator returns the error with nothing changed
on failure), then drop the first tracked file whose raw descriptor
matches, when one exists. `inj` is an injected OS failure of the
underlying `epoll_ctl` call. -/
def EventLoop.remove (s : EventLoop) (f : FileRef) (inj : Option Int) :
    Except OsError Unit × EventLoop :=
  match EPoll.remove s.kernel inj f.fd with
  | .error e => (.error e, s)
  | .ok k =>
    match s.findFileIndex f.fd with
    | some index => (.ok (), ⟨k, s.files.eraseIdx index, s.events⟩)
    | none => (.ok (), ⟨k, s.files, s.events⟩)

/-- The body of `EventLoop::find_file_index_by_event` in
src/event_loop.rs: `self.find_file_index(self.events[event_index].data as
RawFd)`. The Rust indexing `self.events[event_index]` is only reached for
indices below the count `epoll_wait` returned, which the kernel contract
keeps within the buffer, so the out-of-range case (`none` here, a panic in
Rust) is unreachable in any claim. -/
def EventLoop.findFileIndexByEvent (s : EventLoop) (eventIndex : Nat) :
    Option Nat :=
  match s.events.get? eventIndex with
  | some e => s.findFileIndex (u64ToI32 e.data)
  | none => none

/-- Item the iterator builds for event index `idx`:
`find_file_index_by_event(idx).map(|i| files[i])`, exactly the expression
inside `EventLoopIterator::next` (the indexing `files[i]` is in bounds
because `find_file_index` returns a position into `files`). -/
def resolveEvent (s : EventLoop) (idx : Nat) : Option FileRef :=
  (s.findFileIndexByEvent idx).map (fun i => s.files.getD i ⟨-1⟩)

/-- State of the `EventLoopIterator` of src/event_loop.rs (besides its
borrow of the event loop): the next event index and the ready-event count
the wait returned. -/
structure EventLoopIterator where
  index : Nat
  amount : Nat
deriving DecidableEq

/-- The body of `Iterator::next` for `EventLoopIterator` in
src/event_loop.rs: `None` once `index >= amount`; otherwise advance the
index and return `find_file_index_by_event(idx).map(|i| files[i])` (the
expression `resolveEvent`) — which is `None` when the event's tag matches
no tracked file. Returns the item and the advanced iterator. -/
def EventLoopIterator.next (s : EventLoop) (it : EventLoopIterator) :
    Option FileRef × EventLoopIterator :=
  if it.amount ≤ it.index then (none, it)
  else
    let idx := it.index
    (resolveEvent s idx, ⟨it.index + 1, it.amount⟩)

/-- Loop driving the iterator the way a Rust `for` loop does: call `next`
repeatedly, collect the yielded items, and stop at the first `None`. The
`fuel` argument only makes the recursion structural; `next` either yields
`none` or advances `index` toward `amount`, so any fuel above
`amount - index` changes nothing. -/
def EventLoopIterator.drive (s : EventLoop) :
    Nat → EventLoopIterator → List FileRef
  | 0, _ => []
  | fuel + 1, it =>
    match EventLoopIterator.next s it with
    | (none, _) => []
    | (some f, it') => f :: EventLoopIterator.drive s fuel it'

/-- Sequence a Rust `for` loop over the `EventLoopIterator` produces:
items from repeated `next` calls up to the first `None`. -/
def EventLoopIterator.run (s : EventLoop) (it : EventLoopIterator) :
    List FileRef :=
  EventLoopIterator.drive s (it.amount - it.index + 1) it

/-- The body of `EventLoop::wait` in src/event_loop.rs: delegate to
`EPoll::wait` on the internal event buffer; on failure the error is
returned unchanged, on success the buffer holds the kernel-written events
and an iterator over indices `0..event_amount` is handed back. -/
def EventLoop.wait (s : EventLoop) (t : Timeout) (kernel : KernelWaitOracle) :
    Except OsError (EventLoop × EventLoopIterator) :=
  match EPoll.wait s.events t kernel with
  | (.error e, _) => .error e
  | (.ok amount, buf) => .ok (⟨s.kernel, s.files, buf⟩, ⟨0, amount⟩)

/-- One mutation of the tracked event loop, with the kernel failure (if
any) the underlying `epoll_ctl` call will report. -/
inductive LoopOp where
  | add (f : FileRef) (inj : Option Int)
  | remove (f : FileRef) (inj : Option Int)
deriving DecidableEq

/-- Application of one `LoopOp` to an event-loop state. -/
def applyOp (s : EventLoop) : LoopOp → Except OsError Unit × EventLoop
  | .add f inj => s.add f inj
  | .remove f inj => s.remove f inj

/-- Contribution of one operation with its outcome to the pair
(successful-add count, successful-remove count). -/
def okInc : LoopOp → Except OsError Unit → Nat × Nat
  | .add _ _, .ok _ => (1, 0)
  | .remove _ _, .ok _ => (0, 1)
  | _, _ => (0, 0)

/-- Run of an operation sequence that also counts successful adds and
successful removes: returns (final state, ok adds, ok removes). -/
def runTrace (s : EventLoop) : List LoopOp → EventLoop × Nat × Nat
  | [] => (s, 0, 0)
  | op :: rest =>
    let step := applyOp s op
    let inc := okInc op step.1
    let tail := runTrace step.2 rest
    (tail.1, tail.2.1 + inc.1, tail.2.2 + inc.2)

/-- Final state of a run of an operation sequence. -/
def runOps (s : EventLoop) (ops : List LoopOp) : EventLoop :=
  (runTrace s ops).1

/-- Modelled from the spec: the sequence §4.2 describes for `wait` —
"for each of the N ready kernel events (in the order the kernel reported
them), resolves the tag back to a tracked reference via linear search and
yields that reference, skipping (producing no item, not an error) any tag
that no longer matches a tracked reference". Stated for comparison with
`EventLoopIterator.run`, the sequence the code produces. -/
def specWaitSequence (s : EventLoop) (amount : Nat) : List FileRef :=
  (List.range amount).filterMap (resolveEvent s)


/-! Helper lemmas. -/

deriving instance DecidableEq for Except

/-- Removing the element at the index `findIdx?` returns is removing the
first element satisfying the predicate. -/
theorem eraseIdx_findIdx?_eraseP {α : Type} (p : α → Bool) :
    ∀ (l : List α) (i : Nat), l.findIdx? p = some i →
      l.eraseIdx i = l.eraseP p := by
  intro l
  induction l with
  | nil => intro i h; simp at h
  | cons a t ih =>
    intro i h
    by_cases hp : p a
    · simp [List.findIdx?_cons, hp] at h
      subst h
      simp [List.eraseIdx, hp]
    · simp [List.findIdx?_cons, hp] at h
      cases hT : t.findIdx? p with
      | none => rw [hT] at h; simp at h
      | some j =>
        rw [hT] at h
        simp at h
        subst h
        simp [List.eraseIdx, List.eraseP_cons, hp, ih j hT]

/-- Mapping commutes with removing the first element satisfying a
predicate that only looks at the mapped value. -/
theorem map_eraseP_comm {α β : Type} (f : α → β) (q : β → Bool) :
    ∀ l : List α, (l.eraseP (fun a => q (f a))).map f = (l.map f).eraseP q := by
  intro l
  induction l with
  | nil => rfl
  | cons a t ih => by_cases h : q (f a) <;> simp [List.eraseP_cons, h, ih]

/-- Any-over-map in beta-reduced form. -/
theorem any_map_beta {α β : Type} (f : α → β) (p : β → Bool) :
    ∀ l : List α, (l.map f).any p = l.any (fun a => p (f a)) := by
  intro l
  induction l with
  | nil => rfl
  | cons a t ih => simp [ih]

/-- Inversion of a successful `EPoll.add`: no injected failure, the
descriptor was not registered, and the new registration is appended. -/
theorem EPoll.add_ok {k k' : Kernel} {inj : Option Int} {fd : Int}
    {ev : EventType} {d : Nat} (h : EPoll.add k inj fd ev d = .ok k') :
    inj = none ∧ k.any (fun r => r.fd == fd) = false ∧
    k' = k ++ [⟨fd, ev, d⟩] := by
  cases inj with
  | some c => simp [EPoll.add] at h
  | none =>
    by_cases hA : k.any (fun r => r.fd == fd) <;> simp [EPoll.add, hA] at h
    exact ⟨rfl, by simp [hA], h.symm⟩

/-- Inversion of a successful `EPoll.remove`: no injected failure, the
descriptor was registered, and its registration is dropped. -/
theorem EPoll.remove_ok {k k' : Kernel} {inj : Option Int} {fd : Int}
    (h : EPoll.remove k inj fd = .ok k') :
    inj = none ∧ k.any (fun r => r.fd == fd) = true ∧
    k' = k.eraseP (fun r => r.fd == fd) := by
  cases inj with
  | some c => simp [EPoll.remove] at h
  | none =>
    by_cases hA : k.any (fun r => r.fd == fd) <;> simp [EPoll.remove, hA] at h
    exact ⟨rfl, by simp [hA], h.symm⟩

/-! Claim theorems. -/

/-- C10: the default `Event` has the readable flag `EPOLLIN` set in its
events mask (not an empty mask) and a tag of 0, so a buffer of `n`
default-initialized events has every slot equal to
`{ events := EPOLLIN, data := 0 }`. -/
theorem c10_event_default_epollin_zero :
    Event.default = ⟨EPOLLIN, 0⟩ ∧
    EPOLLIN.bits ≠ 0 ∧
    Event.default.events.bits &&& EPOLLIN.bits = EPOLLIN.bits ∧
    ∀ n : Nat, (List.replicate n Event.default).all
      (fun e => e == (⟨EPOLLIN, 0⟩ : Event)) := by
  refine ⟨rfl, by decide, by decide, ?_⟩
  intro n
  rw [List.all_eq_true]
  intro e he
  rw [List.eq_of_mem_replicate he]
  decide

/-- C4: `EPoll::wait` translates `Indefinite` to -1, `Immediate` to 0,
and `Milliseconds(n)` to `n` below `i32::MAX = 2147483647` and to exactly
2147483647 from there on; consequently a wait with `Milliseconds(n)` for
any `n ≥ 2147483647` behaves identically to one with exactly
`Milliseconds(2147483647)`. -/
theorem c4_timeout_translation :
    timeoutToMs .Indefinite = -1 ∧
    timeoutToMs .Immediate = 0 ∧
    (∀ n : Nat, n < 2147483647 → timeoutToMs (.Milliseconds n) = (n : Int)) ∧
    (∀ n : Nat, 2147483647 ≤ n →
      timeoutToMs (.Milliseconds n) = 2147483647) ∧
    (∀ (n : Nat) (buf : List Event) (kernel : KernelWaitOracle),
      2147483647 ≤ n →
      EPoll.wait buf (.Milliseconds n) kernel =
        EPoll.wait buf (.Milliseconds 2147483647) kernel) := by
  refine ⟨rfl, rfl, ?_, ?_, ?_⟩
  · intro n h
    have hn : ¬ (2147483647 ≤ n) := by omega
    simp only [timeoutToMs, if_neg hn]
  · intro n h
    simp only [timeoutToMs, if_pos h]
  · intro n buf kernel h
    simp only [EPoll.wait, timeoutToMs, if_pos h, if_pos (Nat.le_refl _)]

/-- Witness for C4 at `n = 3000000000` and a concrete oracle. -/
theorem c4_timeout_translation_witness :
    timeoutToMs (.Milliseconds 5) = 5 ∧
    timeoutToMs (.Milliseconds 3000000000) = 2147483647 ∧
    EPoll.wait [] (.Milliseconds 3000000000) (fun _ => ⟨0, 0, []⟩) =
      EPoll.wait [] (.Milliseconds 2147483647) (fun _ => ⟨0, 0, []⟩) :=
  ⟨c4_timeout_translation.2.2.1 5 (by decide),
   c4_timeout_translation.2.2.2.1 3000000000 (by decide),
   c4_timeout_translation.2.2.2.2 3000000000 [] _ (by decide)⟩

/-- C5: when the inner multiplexer registration fails, `EventLoop::add`
returns exactly that `OsError` and leaves the whole event-loop state (the
tracked set, the event buffer, and the kernel registrations) unchanged. -/
theorem c5_add_failure_leaves_state (s : EventLoop) (f : FileRef)
    (inj : Option Int) (e : OsError)
    (h : EPoll.add s.kernel inj f.fd EPOLLIN (i32ToU64 f.fd) = .error e) :
    s.add f inj = (.error e, s) := by
  simp [EventLoop.add, h]

/-- Witness for C5: a loop already tracking descriptor 3 and a second add
of descriptor 3, which the kernel refuses with EEXIST = 17. -/
theorem c5_add_failure_leaves_state_witness :
    (⟨[⟨3, EPOLLIN, 3⟩], [⟨3⟩], [Event.default]⟩ : EventLoop).add ⟨3⟩ none =
      (.error ⟨17⟩,
       ⟨[⟨3, EPOLLIN, 3⟩], [⟨3⟩], [Event.default]⟩) :=
  c5_add_failure_leaves_state _ _ _ _ (by decide)

/-- C9: a successful `EventLoop::add` registers on the inner multiplexer
with exactly `EPOLLIN` as the interest mask and exactly the reference's
raw descriptor widened to 64 bits as the tag, and appends the reference to
the tracked set. -/
theorem c9_add_registration_shape (s : EventLoop) (f : FileRef)
    (inj : Option Int)
    (h : (s.add f inj).1 = .ok ()) :
    (s.add f inj).2.kernel = s.kernel ++ [⟨f.fd, EPOLLIN, i32ToU64 f.fd⟩] ∧
    (s.add f inj).2.files = s.files ++ [f] := by
  unfold EventLoop.add at h ⊢
  cases hE : EPoll.add s.kernel inj f.fd EPOLLIN (i32ToU64 f.fd) with
  | error e => rw [hE] at h; simp at h
  | ok k =>
    have hk := (EPoll.add_ok hE).2.2
    refine ⟨?_, ?_⟩ <;> simp [hk]

/-- Witness for C9: adding descriptor 7 to the empty loop. -/
theorem c9_add_registration_shape_witness :
    (EventLoop.new.add ⟨7⟩ none).2.kernel = [⟨7, EPOLLIN, 7⟩] ∧
    (EventLoop.new.add ⟨7⟩ none).2.files = [⟨7⟩] :=
  c9_add_registration_shape EventLoop.new ⟨7⟩ none (by decide)

/-- C6: when deregistration from the inner multiplexer fails,
`EventLoop::remove` returns that `OsError` and leaves the state unchanged;
when it succeeds, the first tracked reference whose raw descriptor equals
the argument's is removed from the tracked set (and the event buffer is
untouched). -/
theorem c6_remove_semantics (s : EventLoop) (f : FileRef) (inj : Option Int) :
    (∀ e : OsError, EPoll.remove s.kernel inj f.fd = .error e →
      s.remove f inj = (.error e, s)) ∧
    (∀ k : Kernel, EPoll.remove s.kernel inj f.fd = .ok k →
      s.remove f inj =
        (.ok (), ⟨k, s.files.eraseP (fun r => r.fd == f.fd), s.events⟩)) := by
  constructor
  · intro e hE
    simp [EventLoop.remove, hE]
  · intro k hE
    unfold EventLoop.remove
    rw [hE]
    cases hF : s.findFileIndex f.fd with
    | some i =>
      simp only [EventLoop.findFileIndex] at hF
      simp [eraseIdx_findIdx?_eraseP _ _ i hF]
    | none =>
      simp only [EventLoop.findFileIndex] at hF
      have hall := List.findIdx?_eq_none_iff.mp hF
      have : s.files.eraseP (fun r => r.fd == f.fd) = s.files := by
        rw [List.eraseP_eq_self_iff]
        intro a ha
        simp [hall a ha]
      simp [this]

/-- Witness for C6: removing descriptor 3 from a loop tracking 3 and 4
(success path), and removing descriptor 9 from the empty loop (the kernel
reports ENOENT = 2, error path). -/
theorem c6_remove_semantics_witness :
    (⟨[⟨3, EPOLLIN, 3⟩, ⟨4, EPOLLIN, 4⟩], [⟨3⟩, ⟨4⟩],
      [Event.default, Event.default]⟩ : EventLoop).remove ⟨3⟩ none =
      (.ok (), ⟨[⟨4, EPOLLIN, 4⟩], [⟨4⟩],
        [Event.default, Event.default]⟩) ∧
    EventLoop.new.remove ⟨9⟩ none = (.error ⟨2⟩, EventLoop.new) :=
  ⟨(c6_remove_semantics _ _ _).2 [⟨4, EPOLLIN, 4⟩] (by decide),
   (c6_remove_semantics _ _ _).1 ⟨2⟩ (by decide)⟩

/-- C7: under the kernel contract (on success the count of written events
equals the return code and fits the buffer), `EPoll::wait` returns
`Err(OsError)` carrying the OS error code exactly when the kernel call
returns a negative code, and otherwise `Ok(N)` with `N` the kernel count,
`0 ≤ N ≤` the buffer length, the ready events in the first `N` slots, and
the remaining slots untouched. -/
theorem c7_wait_result (buf : List Event) (t : Timeout)
    (kernel : KernelWaitOracle)
    (hc : 0 ≤ (kernel (timeoutToMs t)).rc →
      (kernel (timeoutToMs t)).written.length =
        (kernel (timeoutToMs t)).rc.toNat ∧
      (kernel (timeoutToMs t)).rc.toNat ≤ buf.length) :
    ((kernel (timeoutToMs t)).rc < 0 →
      EPoll.wait buf t kernel =
        (.error ⟨(kernel (timeoutToMs t)).errno⟩, buf)) ∧
    (0 ≤ (kernel (timeoutToMs t)).rc →
      (EPoll.wait buf t kernel).1 = .ok (kernel (timeoutToMs t)).rc.toNat ∧
      (kernel (timeoutToMs t)).rc.toNat ≤ buf.length ∧
      (EPoll.wait buf t kernel).2.take (kernel (timeoutToMs t)).rc.toNat =
        (kernel (timeoutToMs t)).written ∧
      (EPoll.wait buf t kernel).2.drop (kernel (timeoutToMs t)).rc.toNat =
        buf.drop (kernel (timeoutToMs t)).rc.toNat ∧
      (EPoll.wait buf t kernel).2.length = buf.length) := by
  constructor
  · intro hneg
    simp [EPoll.wait, if_pos hneg]
  · intro hpos
    have hnneg : ¬ ((kernel (timeoutToMs t)).rc < 0) := by omega
    obtain ⟨hlen, hle⟩ := hc hpos
    have hW : EPoll.wait buf t kernel =
        (.ok (kernel (timeoutToMs t)).rc.toNat,
         (kernel (timeoutToMs t)).written ++
           buf.drop (kernel (timeoutToMs t)).written.length) := by
      simp only [EPoll.wait, if_neg hnneg]
    rw [hW]
    refine ⟨rfl, hle, ?_, ?_, ?_⟩
    · exact List.take_left' hlen
    · rw [List.drop_left' hlen, hlen]
    · rw [List.length_append, List.length_drop]
      omega

/-- Witness for C7: a two-slot buffer and a kernel reporting one ready
event. -/
theorem c7_wait_result_witness :
    (EPoll.wait [Event.default, Event.default] .Immediate
      (fun _ => ⟨1, 0, [⟨EPOLLIN, 9⟩]⟩)).1 = .ok 1 ∧
    (EPoll.wait [Event.default, Event.default] .Immediate
      (fun _ => ⟨1, 0, [⟨EPOLLIN, 9⟩]⟩)).2.take 1 = [⟨EPOLLIN, 9⟩] :=
  have h := (c7_wait_result [Event.default, Event.default] .Immediate
    (fun _ => ⟨1, 0, [⟨EPOLLIN, 9⟩]⟩) (by decide)).2 (by decide)
  ⟨h.1, h.2.2.1⟩

/-- Unfolding of a run on a cons: first apply the head operation. -/
theorem runOps_cons (s : EventLoop) (op : LoopOp) (rest : List LoopOp) :
    runOps s (op :: rest) = runOps (applyOp s op).2 rest := rfl

/-- A run of a concatenation is the two runs in order. -/
theorem runOps_append (ops more : List LoopOp) :
    ∀ s : EventLoop, runOps s (ops ++ more) = runOps (runOps s ops) more := by
  induction ops with
  | nil => intro s; rfl
  | cons op rest ih =>
    intro s
    rw [List.cons_append, runOps_cons, runOps_cons, ih]

/-- One event-loop operation keeps the tracked set at most as long as the
companion event buffer. -/
theorem applyOp_files_le_events (s : EventLoop) (op : LoopOp)
    (h : s.files.length ≤ s.events.length) :
    (applyOp s op).2.files.length ≤ (applyOp s op).2.events.length := by
  cases op with
  | add f inj =>
    show (s.add f inj).2.files.length ≤ (s.add f inj).2.events.length
    unfold EventLoop.add
    cases hE : EPoll.add s.kernel inj f.fd EPOLLIN (i32ToU64 f.fd) with
    | error e => exact h
    | ok k =>
      show (s.files ++ [f]).length ≤
        (if s.events.length < (s.files ++ [f]).length
         then s.events ++ [Event.default] else s.events).length
      by_cases hlt : s.events.length < (s.files ++ [f]).length
      · rw [if_pos hlt]
        simp only [List.length_append, List.length_singleton]
        omega
      · rw [if_neg hlt]
        simp only [List.length_append, List.length_singleton] at hlt ⊢
        omega
  | remove f inj =>
    show (s.remove f inj).2.files.length ≤ (s.remove f inj).2.events.length
    unfold EventLoop.remove
    cases hE : EPoll.remove s.kernel inj f.fd with
    | error e => exact h
    | ok k =>
      cases hF : s.findFileIndex f.fd with
      | some i => exact le_trans (List.length_eraseIdx_le _ _) h
      | none => exact h

/-- One event-loop operation never shrinks the companion event buffer. -/
theorem applyOp_events_mono (s : EventLoop) (op : LoopOp) :
    s.events.length ≤ (applyOp s op).2.events.length := by
  cases op with
  | add f inj =>
    show s.events.length ≤ (s.add f inj).2.events.length
    unfold EventLoop.add
    cases hE : EPoll.add s.kernel inj f.fd EPOLLIN (i32ToU64 f.fd) with
    | error e => exact Nat.le_refl _
    | ok k =>
      show s.events.length ≤
        (if s.events.length < (s.files ++ [f]).length
         then s.events ++ [Event.default] else s.events).length
      by_cases hlt : s.events.length < (s.files ++ [f]).length
      · rw [if_pos hlt]
        simp only [List.length_append, List.length_singleton]
        omega
      · rw [if_neg hlt]
  | remove f inj =>
    show s.events.length ≤ (s.remove f inj).2.events.length
    unfold EventLoop.remove
    cases hE : EPoll.remove s.kernel inj f.fd with
    | error e => exact Nat.le_refl _
    | ok k =>
      cases hF : s.findFileIndex f.fd with
      | some i => exact Nat.le_refl _
      | none => exact Nat.le_refl _

/-- Along any run, the tracked set stays at most as long as the buffer. -/
theorem runOps_files_le_events (ops : List LoopOp) :
    ∀ s : EventLoop, s.files.length ≤ s.events.length →
      (runOps s ops).files.length ≤ (runOps s ops).events.length := by
  induction ops with
  | nil => intro s h; exact h
  | cons op rest ih =>
    intro s h
    rw [runOps_cons]
    exact ih _ (applyOp_files_le_events s op h)

/-- Along any run, the buffer length never decreases. -/
theorem runOps_events_mono (ops : List LoopOp) :
    ∀ s : EventLoop, s.events.length ≤ (runOps s ops).events.length := by
  induction ops with
  | nil => intro s; exact Nat.le_refl _
  | cons op rest ih =>
    intro s
    rw [runOps_cons]
    exact le_trans (applyOp_events_mono s op) (ih _)

/-- C2: for every sequence of add and remove operations starting from
`new()`, the companion event buffer is at least as long as the tracked
reference set. -/
theorem c2_buffer_len_ge_tracked_len (ops : List LoopOp) :
    (runOps EventLoop.new ops).files.length ≤
      (runOps EventLoop.new ops).events.length :=
  runOps_files_le_events ops EventLoop.new (Nat.le_refl 0)

/-- C3 is false on the code: after one successful add followed by one
successful remove, the tracked set is empty while the event buffer still
holds one slot, so the tracked set is strictly smaller than the buffer. -/
theorem c3_counterexample :
    ¬ ((runOps EventLoop.new [.add ⟨3⟩ none, .remove ⟨3⟩ none]).events.length ≤
       (runOps EventLoop.new [.add ⟨3⟩ none, .remove ⟨3⟩ none]).files.length) := by
  decide

/-- C3 amended: the inequality runs the other way — for every sequence of
add and remove operations starting from `new()`, the companion event
buffer is at least as large as the tracked set, and the buffer grows
lazily and never shrinks (its length never decreases along any further
operations). -/
theorem c3_amended_buffer_ge_never_shrinks (ops more : List LoopOp) :
    (runOps EventLoop.new ops).files.length ≤
      (runOps EventLoop.new ops).events.length ∧
    (runOps EventLoop.new ops).events.length ≤
      (runOps EventLoop.new (ops ++ more)).events.length :=
  ⟨runOps_files_le_events ops EventLoop.new (Nat.le_refl 0),
   by rw [runOps_append]; exact runOps_events_mono more _⟩

/-- Correspondence invariant between the tracked set and the inner epoll:
the tracked files' descriptors are exactly the kernel's registered
descriptors, in registration order. It holds for `new()` and is preserved
by every add and remove, because both mutate the two sides together. -/
def trackedMatchesKernel (s : EventLoop) : Prop :=
  s.files.map (fun r => r.fd) = s.kernel.map (fun r => r.fd)

/-- One operation preserves the tracked/kernel correspondence, and changes
the tracked-set size by exactly its success contribution: +1 for a
successful add, -1 for a successful remove, 0 for a failure. -/
theorem applyOp_inv_count (s : EventLoop) (op : LoopOp)
    (h : trackedMatchesKernel s) :
    trackedMatchesKernel (applyOp s op).2 ∧
    (applyOp s op).2.files.length + (okInc op (applyOp s op).1).2 =
      s.files.length + (okInc op (applyOp s op).1).1 := by
  cases op with
  | add f inj =>
    show trackedMatchesKernel (s.add f inj).2 ∧
      (s.add f inj).2.files.length + (okInc (.add f inj) (s.add f inj).1).2 =
        s.files.length + (okInc (.add f inj) (s.add f inj).1).1
    unfold EventLoop.add
    cases hE : EPoll.add s.kernel inj f.fd EPOLLIN (i32ToU64 f.fd) with
    | error e => exact ⟨h, rfl⟩
    | ok k =>
      have hk := (EPoll.add_ok hE).2.2
      constructor
      · show (s.files ++ [f]).map (fun r => r.fd) = k.map (fun r => r.fd)
        rw [hk]
        have h' : s.files.map (fun r => r.fd) = s.kernel.map (fun r => r.fd) := h
        simp [h']
      · show (s.files ++ [f]).length + 0 = s.files.length + 1
        simp
  | remove f inj =>
    show trackedMatchesKernel (s.remove f inj).2 ∧
      (s.remove f inj).2.files.length +
          (okInc (.remove f inj) (s.remove f inj).1).2 =
        s.files.length + (okInc (.remove f inj) (s.remove f inj).1).1
    unfold EventLoop.remove
    cases hE : EPoll.remove s.kernel inj f.fd with
    | error e => exact ⟨h, rfl⟩
    | ok k =>
      have hAny := (EPoll.remove_ok hE).2.1
      have hk := (EPoll.remove_ok hE).2.2
      have hFAny : s.files.any (fun r => r.fd == f.fd) = true := by
        have h1 : (s.files.map (fun r => r.fd)).any (fun x => x == f.fd) =
            s.files.any (fun r => r.fd == f.fd) :=
          any_map_beta (fun r => r.fd) (fun x => x == f.fd) s.files
        have h2 : (s.kernel.map (fun r => r.fd)).any (fun x => x == f.fd) =
            s.kernel.any (fun r => r.fd == f.fd) :=
          any_map_beta (fun r => r.fd) (fun x => x == f.fd) s.kernel
        rw [← h1, h, h2, hAny]
      have hSome : (s.files.findIdx? (fun r => r.fd == f.fd)).isSome := by
        rw [List.findIdx?_isSome, hFAny]
      cases hF : s.findFileIndex f.fd with
      | none =>
        simp only [EventLoop.findFileIndex] at hF
        rw [hF] at hSome
        simp at hSome
      | some i =>
        simp only [EventLoop.findFileIndex] at hF
        have hEr : s.files.eraseIdx i = s.files.eraseP (fun r => r.fd == f.fd) :=
          eraseIdx_findIdx?_eraseP _ _ i hF
        constructor
        · show (s.files.eraseIdx i).map (fun r => r.fd) = k.map (fun r => r.fd)
          rw [hEr, hk]
          have hm1 : (s.files.eraseP (fun r => r.fd == f.fd)).map
              (fun r => r.fd) =
              (s.files.map (fun r => r.fd)).eraseP (fun x => x == f.fd) :=
            map_eraseP_comm (fun r => r.fd) (fun x => x == f.fd) s.files
          have hm2 : (s.kernel.eraseP (fun r => r.fd == f.fd)).map
              (fun r => r.fd) =
              (s.kernel.map (fun r => r.fd)).eraseP (fun x => x == f.fd) :=
            map_eraseP_comm (fun r => r.fd) (fun x => x == f.fd) s.kernel
          rw [hm1, hm2, h]
        · show (s.files.eraseIdx i).length + 1 = s.files.length + 0
          rw [hEr, List.length_eraseP, if_pos hFAny]
          have hne : s.files ≠ [] := by
            intro hnil
            rw [hnil] at hFAny
            simp at hFAny
          have : 0 < s.files.length := List.length_pos.mpr hne
          omega

/-- Along a run from a state satisfying the correspondence invariant, the
invariant persists and the tracked-set size changes by successful adds
minus successful removes. -/
theorem runTrace_inv_count (ops : List LoopOp) :
    ∀ s : EventLoop, trackedMatchesKernel s →
      trackedMatchesKernel (runOps s ops) ∧
      (runOps s ops).files.length + (runTrace s ops).2.2 =
        s.files.length + (runTrace s ops).2.1 := by
  induction ops with
  | nil => intro s h; exact ⟨h, rfl⟩
  | cons op rest ih =>
    intro s h
    obtain ⟨h1, h2⟩ := applyOp_inv_count s op h
    obtain ⟨h3, h4⟩ := ih (applyOp s op).2 h1
    constructor
    · rw [runOps_cons]
      exact h3
    · have hA : (runTrace s (op :: rest)).2.1 =
          (runTrace (applyOp s op).2 rest).2.1 +
            (okInc op (applyOp s op).1).1 := rfl
      have hB : (runTrace s (op :: rest)).2.2 =
          (runTrace (applyOp s op).2 rest).2.2 +
            (okInc op (applyOp s op).1).2 := rfl
      rw [runOps_cons, hA, hB]
      omega

/-- C8: for every sequence of add and remove operations starting from
`new()`, the tracked-set size equals the number of successful adds minus
the number of successful removes (stated additively, together with the
subtraction form). -/
theorem c8_tracked_size_eq_okAdds_minus_okRemoves (ops : List LoopOp) :
    (runOps EventLoop.new ops).files.length +
        (runTrace EventLoop.new ops).2.2 =
      (runTrace EventLoop.new ops).2.1 ∧
    (runOps EventLoop.new ops).files.length =
      (runTrace EventLoop.new ops).2.1 - (runTrace EventLoop.new ops).2.2 := by
  have h := (runTrace_inv_count ops EventLoop.new rfl).2
  have h0 : (EventLoop.new).files.length = 0 := rfl
  rw [h0] at h
  omega

/-- Unfolding of `next` when the iterator is exhausted. -/
theorem next_ge (s : EventLoop) (index amount : Nat) (h : amount ≤ index) :
    EventLoopIterator.next s ⟨index, amount⟩ = (none, ⟨index, amount⟩) := by
  unfold EventLoopIterator.next
  rw [if_pos h]

/-- Unfolding of `next` when events remain: resolve the current event and
advance the index. -/
theorem next_lt (s : EventLoop) (index amount : Nat) (h : index < amount) :
    EventLoopIterator.next s ⟨index, amount⟩ =
      (resolveEvent s index, ⟨index + 1, amount⟩) := by
  unfold EventLoopIterator.next
  rw [if_neg (Nat.not_le.mpr h)]

/-- Unfolding of one driving step. -/
theorem drive_succ (s : EventLoop) (m : Nat) (it : EventLoopIterator) :
    EventLoopIterator.drive s (m + 1) it =
      match EventLoopIterator.next s it with
      | (none, _) => []
      | (some f, it') => f :: EventLoopIterator.drive s m it' := rfl

/-- Driving the iterator with sufficient fuel produces the resolutions of
the longest prefix of event indices that all resolve to a tracked file;
the first unresolvable event (if any) ends the sequence. -/
theorem drive_spec (s : EventLoop) :
    ∀ n index amount fuel : Nat, amount - index = n → n < fuel →
      EventLoopIterator.drive s fuel ⟨index, amount⟩ =
        (((List.range' index n).map (resolveEvent s)).takeWhile
          Option.isSome).reduceOption := by
  intro n
  induction n with
  | zero =>
    intro index amount fuel h hf
    cases fuel with
    | zero => omega
    | succ m =>
      have hge : amount ≤ index := by omega
      rw [drive_succ, next_ge s index amount hge]
      rfl
  | succ n ih =>
    intro index amount fuel h hf
    cases fuel with
    | zero => omega
    | succ m =>
      have hlt : index < amount := by omega
      rw [drive_succ, next_lt s index amount hlt, List.range'_succ]
      cases hR : resolveEvent s index with
      | none => simp [hR, List.takeWhile_cons]
      | some f =>
        simp only [List.map_cons, List.takeWhile_cons, hR, Option.isSome_some,
          if_true]
        rw [List.reduceOption_cons_of_some]
        rw [ih (index + 1) amount m (by omega) (by omega)]

/-- Event-loop state after a wait that reported two ready events: one
tracked file (descriptor 5), a first event carrying the stale tag 7
(matching no tracked file) and a second event carrying tag 5. -/
def c1State : EventLoop :=
  ⟨[⟨5, EPOLLIN, 5⟩], [⟨5⟩], [⟨EPOLLIN, 7⟩, ⟨EPOLLIN, 5⟩]⟩

/-- C1 is false on the code: with a stale tag in the first of two ready
events, iterating yields nothing at all — `next` returns `None` for the
unmatched event, which terminates a Rust `for` loop — instead of skipping
it and still yielding the later matching event, as the claim (and
`specWaitSequence`, the sequence the spec describes) would have it. -/
theorem c1_counterexample :
    EventLoopIterator.run c1State ⟨0, 2⟩ = [] ∧
    specWaitSequence c1State 2 = [⟨5⟩] ∧
    EventLoopIterator.run c1State ⟨0, 2⟩ ≠ specWaitSequence c1State 2 := by
  decide

/-- C1 amended: for a wait that completed with `amount` ready kernel
events (within the buffer, per the kernel contract), iterating the
returned iterator yields, in kernel order, the first tracked reference
whose descriptor equals each event's tag — but only for the longest
prefix of events that all resolve; the first event whose tag matches no
tracked reference terminates the iteration (without crash or error), and
later events are not yielded. -/
theorem c1_amended_longest_resolvable_front (s : EventLoop) (amount : Nat)
    (hA : amount ≤ s.events.length) :
    EventLoopIterator.run s ⟨0, amount⟩ =
      (((List.range amount).map (resolveEvent s)).takeWhile
        Option.isSome).reduceOption := by
  unfold EventLoopIterator.run
  rw [List.range_eq_range']
  exact drive_spec s amount 0 amount (amount - 0 + 1) (by omega) (by omega)

/-- Witness for the amended C1 at the concrete two-event state. -/
theorem c1_amended_longest_resolvable_front_witness :
    2 ≤ c1State.events.length ∧
    EventLoopIterator.run c1State ⟨0, 2⟩ =
      (((List.range 2).map (resolveEvent c1State)).takeWhile
        Option.isSome).reduceOption :=
  ⟨by decide, c1_amended_longest_resolvable_front c1State 2 (by decide)⟩
